import Mathlib

/-!
Verification of the ConfessionBot core (`src/main.py`): the submission
scheduler, the moderation gate, the active-hours window, the word filter,
and the deletion coordinator.  Times are modelled as integer seconds,
per-user maps as `Option Int` entries (absent = `none`), and external
effects (channel sends, sheet appends) as Boolean success oracles.
-/

namespace ConfessionBot

/-- `POST_DELAY` from `main.py`: minimum spacing between posts, in seconds. -/
def POST_DELAY : Int := 15

/-- `DELETE_COOLDOWN` from `main.py`: cooldown for deleting posts, in seconds. -/
def DELETE_COOLDOWN : Int := 60

/-- `LINK_COOLDOWN` from `main.py`: cooldown for link posts, in seconds. -/
def LINK_COOLDOWN : Int := 14400

/-- `START_HOUR` from `main.py` (the shipped value is 18). -/
def START_HOUR : Nat := 18

/-- `END_HOUR` from `main.py` (the shipped value is 21). -/
def END_HOUR : Nat := 21

/-- The body of `is_bot_active`, parameterised by the configured hours and the
current hour: the Python test is `START_HOUR <= current_hour or current_hour < END_HOUR`,
an unconditional disjunction. -/
def is_active_with (s e h : Nat) : Bool := decide (s ≤ h) || decide (h < e)

/-- `is_bot_active` from `main.py`, as a function of the current local hour. -/
def is_bot_active (h : Nat) : Bool := is_active_with START_HOUR END_HOUR h

/-- `current_queue_time` after the catch-up step in `_schedule_post`:
`user_queues.get(user.id, now)` followed by
`if current_queue_time < now: current_queue_time = now`. -/
def queueBase (slot : Option Int) (now : Int) : Int :=
  if slot.getD now < now then now else slot.getD now

/-- `final_delay` from `_schedule_post`:
`(current_queue_time - now_tz).total_seconds() + base_delay`. -/
def finalDelay (slot : Option Int) (now w : Int) : Int :=
  (queueBase slot now - now) + w

/-- The committed queue entry from `_schedule_post`:
`user_queues[user.id] = now_tz + timedelta(seconds=final_delay + POST_DELAY)`,
with the spacing constant kept as a parameter. -/
def newSlot (slot : Option Int) (now w pd : Int) : Int :=
  now + finalDelay slot now w + pd

/-- Effective slot value of a stored entry: absent entries implicitly equal now. -/
def effSlot (slot : Option Int) (now : Int) : Int := slot.getD now

/-- One scheduling step on the whole `user_queues` map for user `u`:
returns the updated map and the computed delay. -/
def schedStep (pd : Int) (st : Nat → Option Int) (u : Nat) (now w : Int) :
    (Nat → Option Int) × Int :=
  (Function.update st u (some (newSlot (st u) now w pd)), finalDelay (st u) now w)

/-- Run a trace of accepted requests `(user, now, windowOffset)` through the
scheduler, collecting each request's publish instant `now + final_delay`. -/
def runPubs (pd : Int) (st : Nat → Option Int) :
    List (Nat × Int × Int) → List (Nat × Int)
  | [] => []
  | (u, now, w) :: r =>
      (u, now + finalDelay (st u) now w) ::
        runPubs pd (Function.update st u (some (newSlot (st u) now w pd))) r

/-- The publish instants of user `u`, in acceptance order. -/
def pubsOf (u : Nat) (l : List (Nat × Int)) : List Int :=
  l.filterMap (fun p => if p.1 = u then some p.2 else none)

/-- Operations on a single submitter's queue entry: an accepted submission
(step 6 of `_schedule_post`) or `/clearqueue` (`clear_queue`, which deletes
the entry unconditionally). -/
inductive QOp
  | submit (w : Int)
  | clear
deriving DecidableEq

/-- Apply one queue operation at time `t`. -/
def applyQOp (pd : Int) (slot : Option Int) (t : Int) : QOp → Option Int
  | .submit w => some (newSlot slot t w pd)
  | .clear => none

/-- Python `\w` over ASCII: letters, digits, underscore. -/
def isWordChar (c : Char) : Bool := c.isAlphanum || decide (c = '_')

/-- Whether position `i` of `s` holds a word character (out of range: no). -/
def wordAt (s : List Char) (i : Nat) : Bool := isWordChar (s.getD i ' ')

/-- Python regex `\b` at position `i` of `s` (positions run from 0 to length):
the word-character status changes between the previous and current position. -/
def boundary (s : List Char) (i : Nat) : Bool :=
  (if i = 0 then false else wordAt s (i - 1)) != wordAt s i

/-- The literal pattern `pat` (the banned word after `re.escape`) occurs at
position `i` of `text`. -/
def matchAt (text pat : List Char) (i : Nat) : Bool :=
  decide ((text.drop i).take pat.length = pat)

/-- The regex `\b pat \b` matches at position `i`. -/
def boundedMatchAt (text pat : List Char) (i : Nat) : Bool :=
  matchAt text pat i && (boundary text i && boundary text (i + pat.length))

/-- `re.search(r"\b" + re.escape(word) + r"\b", text)` as a Boolean. -/
def searchBounded (text pat : List Char) : Bool :=
  (List.range (text.length + 1)).any (fun i => boundedMatchAt text pat i)

/-- `check_for_banned_words` from `main.py`: empty text passes; otherwise the
lowercased text is searched for each banned word with word boundaries,
returning on the first hit. -/
def check_for_banned_words (words : List (List Char)) (text : List Char) : Bool :=
  if text.isEmpty then false
  else words.any (fun w => searchBounded (text.map Char.toLower) w)

/-- Submission kind dispatched to `_schedule_post`. -/
inductive PostKind
  | text
  | photo
deriving DecidableEq

/-- Outcome of the moderation/scheduling pass `_schedule_post`. -/
inductive Decision
  | accept (delay : Int)
  | rejectBanned
  | rejectTimeout (remaining : Int)
  | rejectPhotoDisabled
  | rejectBannedWord
  | rejectLinksDisabled
  | rejectLinkCooldown (remaining : Int)
deriving DecidableEq

/-- `true` exactly on the accepting outcome. -/
def isAccept : Decision → Bool
  | .accept _ => true
  | _ => false

/-- The requesting submitter's entries in the per-user stores:
`user_queues`, `user_link_cooldowns`, `user_delete_cooldowns`, `USER_TIMEOUTS`. -/
structure UserState where
  slot : Option Int
  linkCd : Option Int
  delCd : Option Int
  timeout : Option Int
deriving DecidableEq

/-- The link-cooldown test of `_schedule_post`:
`last_link and (now - last_link).total_seconds() < LINK_COOLDOWN`. -/
def linkActive (lc : Option Int) (now : Int) : Bool :=
  match lc with
  | some last => decide (now - last < LINK_COOLDOWN)
  | none => false

/-- Steps 3-6 of `_schedule_post` (photo toggle, word filter, link check and
stamp, active-window offset, queue calculation), reached after the ban and
timeout checks. -/
def evalRest (photosEnabled linksEnabled : Bool) (words : List (List Char))
    (kind : PostKind) (content : List Char) (hasLink : Bool)
    (isOwner active : Bool) (untilActive : Int)
    (st : UserState) (now : Int) : Decision × UserState :=
  if kind = PostKind.photo && !photosEnabled then (.rejectPhotoDisabled, st)
  else if check_for_banned_words words content then (.rejectBannedWord, st)
  else if hasLink && !linksEnabled then (.rejectLinksDisabled, st)
  else if hasLink && linkActive st.linkCd now then
    (.rejectLinkCooldown (LINK_COOLDOWN - (now - st.linkCd.getD now)), st)
  else
    let st1 := if hasLink then { st with linkCd := some now } else st
    let w := if !active && !isOwner then untilActive else 0
    (.accept (finalDelay st1.slot now w),
      { st1 with slot := some (newSlot st1.slot now w POST_DELAY) })

/-- The decision logic of `_schedule_post` from `main.py`: ban check, lazy
timeout check (an expired entry is evicted and evaluation continues), then
the remaining steps. -/
def evaluate (banned photosEnabled linksEnabled : Bool) (words : List (List Char))
    (kind : PostKind) (content : List Char) (hasLink : Bool)
    (isOwner active : Bool) (untilActive : Int)
    (st : UserState) (now : Int) : Decision × UserState :=
  if banned then (.rejectBanned, st)
  else
    match st.timeout with
    | some expiry =>
        if 0 < expiry - now then (.rejectTimeout (expiry - now), st)
        else evalRest photosEnabled linksEnabled words kind content hasLink
              isOwner active untilActive { st with timeout := none } now
    | none =>
        evalRest photosEnabled linksEnabled words kind content hasLink
          isOwner active untilActive st now

/-- The globals touched by `/toggle_links`: the feature flag and the
per-user link cooldown map. -/
structure BotGlobals where
  linksEnabled : Bool
  linkCds : Nat → Option Int

/-- `toggle_links` from `main.py`: flips `LINKS_ENABLED` and nothing else. -/
def toggle_links (g : BotGlobals) : BotGlobals :=
  { g with linksEnabled := !g.linksEnabled }

/-- Replies `handle_delete` can send to the requester. -/
inductive DelReply
  | success
  | failure
  | cooldownWait (rem : Int)
deriving DecidableEq

/-- Result of one `handle_delete` call: the replies sent to the requester in
order, the requester's deletion-cooldown entry afterwards, and whether
`delete_message` was invoked at the channel. -/
structure DelResult where
  replies : List DelReply
  delCd : Option Int
  deleteIssued : Bool
deriving DecidableEq

/-- The origin test of `handle_delete`:
`target_chat == str(CHANNEL_ID) or "@" + CHANNEL_ID.lstrip("@") == target_chat`. -/
def originMatches (target chan : List Char) : Bool :=
  decide (target = chan) || decide ('@' :: chan.dropWhile (fun c => c = '@') = target)

/-- The `try` block of `handle_delete`: delete at the channel, stamp the
cooldown, send the success reply, then send the audit log message; any
exception falls into `except`, which sends the generic failure reply.
`deleteOk` and `auditOk` are success oracles for the two external sends. -/
def delAttempt (delCd : Option Int) (now : Int) (deleteOk auditOk : Bool) : DelResult :=
  if deleteOk then
    if auditOk then ⟨[.success], some now, true⟩
    else ⟨[.success, .failure], some now, true⟩
  else ⟨[.failure], delCd, true⟩

/-- `handle_delete` from `main.py`: ban/forward check (silent return), origin
check (silent return), deletion-cooldown check, then the delete attempt. -/
def handle_delete (banned isForward : Bool) (target chan : List Char)
    (delCd : Option Int) (now : Int) (deleteOk auditOk : Bool) : DelResult :=
  if banned || !isForward then ⟨[], delCd, false⟩
  else if !originMatches target chan then ⟨[], delCd, false⟩
  else
    match delCd with
    | some last =>
        if now - last < DELETE_COOLDOWN then
          ⟨[.cooldownWait (DELETE_COOLDOWN - (now - last))], delCd, false⟩
        else delAttempt delCd now deleteOk auditOk
    | none => delAttempt delCd now deleteOk auditOk

/-- Observable outcome of the deferred `post_text` job. -/
structure PostResult where
  published : Bool
  auditLogged : Bool
  sheetLogged : Bool
  errorPrinted : Bool
deriving DecidableEq

/-- `post_text` from `main.py`: the channel publish, the log-channel message
and the sheet append run in order inside a single `try` whose `except` only
prints; `log_to_gsheet` catches its own exceptions internally.  Arguments
are success oracles for the three external calls. -/
def post_text (publishOk logOk sheetOk : Bool) : PostResult :=
  if !publishOk then ⟨false, false, false, true⟩
  else if !logOk then ⟨true, false, false, true⟩
  else ⟨true, true, sheetOk, !sheetOk⟩

/-- Claim C3 as stated: at any single queue operation performed at time `t`,
the effective slot value does not decrease unless the stored slot lay in
the past at `t`. -/
def C3Claim (pd : Int) : Prop :=
  ∀ (slot : Option Int) (t : Int) (op : QOp),
    0 ≤ pd →
    (∀ w, op = QOp.submit w → 0 ≤ w) →
    (∀ s, slot = some s → t ≤ s) →
    effSlot slot t ≤ effSlot (applyQOp pd slot t op) t

/-- Claim C4 as stated: the bot is active exactly on `[START_HOUR, END_HOUR)`,
with wraparound only when `START_HOUR ≥ END_HOUR`. -/
def C4Claim : Prop :=
  ∀ h : Nat, h < 24 →
    (is_bot_active h = true ↔
      (if END_HOUR ≤ START_HOUR then (START_HOUR ≤ h ∨ h < END_HOUR)
       else (START_HOUR ≤ h ∧ h < END_HOUR)))

/-- Claim C6 as stated: the filter rejects exactly when some banned term is a
whole-word match in the lowercased content, or an exact full-string match
of the whole lowercased content. -/
def C6Claim : Prop :=
  ∀ (words : List (List Char)) (text : List Char),
    check_for_banned_words words text = true ↔
      ∃ w ∈ words, searchBounded (text.map Char.toLower) w = true ∨
        text.map Char.toLower = w

/-- Claim C9's deletion-path clause as stated: a failure of the audit write
never changes the outcome reported to the requester (here: the reply list of
a successful deletion is independent of the audit oracle). -/
def C9Claim : Prop :=
  ∀ (banned fwd : Bool) (target chan : List Char) (delCd : Option Int) (now : Int),
    (handle_delete banned fwd target chan delCd now true true).replies =
      (handle_delete banned fwd target chan delCd now true false).replies

theorem pubsOf_cons (u v : Nat) (q : Int) (l : List (Nat × Int)) :
    pubsOf u ((v, q) :: l) = if v = u then q :: pubsOf u l else pubsOf u l := by
  by_cases h : v = u <;> simp [pubsOf, List.filterMap_cons, h]

theorem pubs_lb (pd : Int) (hpd : 0 ≤ pd) (u : Nat) :
    ∀ (trace : List (Nat × Int × Int)) (st : Nat → Option Int) (s : Int),
      st u = some s → (∀ e ∈ trace, 0 ≤ e.2.2) →
      ∀ p ∈ pubsOf u (runPubs pd st trace), s ≤ p := by
  intro trace
  induction trace with
  | nil => intro st s hs hw p hp; simp [runPubs, pubsOf] at hp
  | cons e r ih =>
      obtain ⟨v, now, w⟩ := e
      intro st s hs hw p hp
      have hw0 : 0 ≤ w := hw (v, now, w) (List.mem_cons_self _ _)
      have hwr : ∀ e ∈ r, 0 ≤ e.2.2 := fun e he => hw e (List.mem_cons_of_mem _ he)
      rw [runPubs, pubsOf_cons] at hp
      by_cases hvu : v = u
      · subst hvu
        rw [if_pos rfl] at hp
        have hpub : s ≤ now + finalDelay (st v) now w := by
          rw [hs]
          simp only [finalDelay, queueBase, Option.getD_some]
          split_ifs <;> omega
        rcases List.mem_cons.mp hp with hph | hpt
        · omega
        · have hup : Function.update st v (some (newSlot (st v) now w pd)) v =
              some (newSlot (st v) now w pd) := Function.update_same v _ st
          have := ih (Function.update st v (some (newSlot (st v) now w pd)))
            (newSlot (st v) now w pd) hup hwr p hpt
          have hns : now + finalDelay (st v) now w + pd = newSlot (st v) now w pd := rfl
          omega
      · rw [if_neg hvu] at hp
        have hup : Function.update st v (some (newSlot (st v) now w pd)) u = st u :=
          Function.update_noteq (fun h => hvu h.symm) _ st
        exact ih _ s (by rw [hup, hs]) hwr p hp

theorem pubs_chain (pd : Int) (hpd : 0 ≤ pd) (u : Nat) :
    ∀ (trace : List (Nat × Int × Int)) (st : Nat → Option Int),
      (∀ e ∈ trace, 0 ≤ e.2.2) →
      List.Chain' (fun p q => p + pd ≤ q) (pubsOf u (runPubs pd st trace)) := by
  intro trace
  induction trace with
  | nil => intro st hw; simp [runPubs, pubsOf]
  | cons e r ih =>
      obtain ⟨v, now, w⟩ := e
      intro st hw
      have hwr : ∀ e ∈ r, 0 ≤ e.2.2 := fun e he => hw e (List.mem_cons_of_mem _ he)
      rw [runPubs, pubsOf_cons]
      by_cases hvu : v = u
      · subst hvu
        rw [if_pos rfl, List.chain'_cons']
        refine ⟨?_, ih _ hwr⟩
        intro q hq
        have hup : Function.update st v (some (newSlot (st v) now w pd)) v =
            some (newSlot (st v) now w pd) := Function.update_same v _ st
        have hmem : q ∈ pubsOf v (runPubs pd
            (Function.update st v (some (newSlot (st v) now w pd))) r) :=
          List.mem_of_mem_head? hq
        have := pubs_lb pd hpd v r _ (newSlot (st v) now w pd) hup hwr q hmem
        have hns : now + finalDelay (st v) now w + pd = newSlot (st v) now w pd := rfl
        omega
      · rw [if_neg hvu]
        exact ih _ hwr

/-- C1: the scheduler computes `totalDelay = max(0, storedSlot - now) + windowOffset`
(absent slots count as now) and commits `storedSlot := now + totalDelay + postDelay`;
with `postDelay = 60` and an empty initial slot, submissions at t=0, t=10 and t=70
get delays 0, 50 and 50, publish at t=0, t=60 and t=120, and leave the slot at
60, 120 and 180. -/
theorem c1_scheduler_formula :
    (∀ s now w : Int, finalDelay (some s) now w = max 0 (s - now) + w) ∧
    (∀ now w : Int, finalDelay none now w = w) ∧
    (∀ (slot : Option Int) (now w pd : Int),
      newSlot slot now w pd = now + finalDelay slot now w + pd) ∧
    finalDelay none 0 0 = 0 ∧ newSlot none 0 0 60 = 60 ∧
    finalDelay (some 60) 10 0 = 50 ∧ 10 + finalDelay (some 60) 10 0 = 60 ∧
    newSlot (some 60) 10 0 60 = 120 ∧
    finalDelay (some 120) 70 0 = 50 ∧ 70 + finalDelay (some 120) 70 0 = 120 ∧
    newSlot (some 120) 70 0 60 = 180 := by
  refine ⟨?_, ?_, fun slot now w pd => rfl, by decide, by decide, by decide,
    by decide, by decide, by decide, by decide, by decide⟩
  · intro s now w
    simp only [finalDelay, queueBase, Option.getD_some, max_def]
    split_ifs <;> omega
  · intro now w
    simp [finalDelay, queueBase]

/-- C2: for every submitter, along any trace of accepted requests (arbitrarily
interleaved with other submitters' requests, which never touch this
submitter's entry), consecutive computed publish instants are at least
`postDelay` apart, hence strictly increasing: acceptance order equals
publish order. -/
theorem c2_spacing_fifo :
    (∀ (pd : Int) (st : Nat → Option Int) (u v : Nat) (now w : Int),
      v ≠ u → (schedStep pd st u now w).1 v = st v) ∧
    (∀ (pd : Int) (trace : List (Nat × Int × Int)) (st : Nat → Option Int) (u : Nat),
      0 < pd → (∀ e ∈ trace, 0 ≤ e.2.2) →
      List.Chain' (fun p q => p + pd ≤ q) (pubsOf u (runPubs pd st trace)) ∧
      List.Chain' (fun p q => p < q) (pubsOf u (runPubs pd st trace))) := by
  constructor
  · intro pd st u v now w hne
    exact Function.update_noteq hne _ st
  · intro pd trace st u hpd hw
    have hch := pubs_chain pd (le_of_lt hpd) u trace st hw
    exact ⟨hch, hch.imp (fun a b hab => by omega)⟩

/-- Witness for C2 at a concrete input: two users interleaved, spacing 15. -/
theorem c2_spacing_fifo_witness :
    (schedStep 15 (fun _ => none) 1 0 0).1 2 = none ∧
    List.Chain' (fun p q => p + 15 ≤ q)
      (pubsOf 1 (runPubs 15 (fun _ => none) [(1, 0, 0), (2, 3, 0), (1, 10, 0)])) :=
  ⟨c2_spacing_fifo.1 15 (fun _ => none) 1 2 0 0 (by decide),
   (c2_spacing_fifo.2 15 [(1, 0, 0), (2, 3, 0), (1, 10, 0)] (fun _ => none) 1
      (by decide) (by decide)).1⟩

/-- C3, counterexample: `/clearqueue` removes the stored entry even when the
slot lies in the future, dropping the effective slot back to the current
time; so the sequence of slot values can decrease without the stored slot
lying in the past.  Here the stored slot 100 at time 0 falls to 0. -/
theorem c3_slot_monotone_counterexample : ¬ C3Claim 15 := by
  intro h
  have h100 := h (some 100) 0 QOp.clear (by decide)
    (fun w hw => nomatch hw)
    (fun s hs => by injection hs with h2; omega)
  exact absurd h100 (by decide)

/-- C3, amended: an accepted submission never decreases the committed slot
(it raises it by at least `postDelay`), but queue-clearing resets the
effective slot to the current time regardless of whether the stored slot
was in the past or in the future. -/
theorem c3_slot_monotone_amended :
    ∀ (slot : Option Int) (t w pd : Int), 0 ≤ w → 0 ≤ pd →
      effSlot slot t + pd ≤ effSlot (applyQOp pd slot t (QOp.submit w)) t ∧
      effSlot (applyQOp pd slot t QOp.clear) t = t := by
  intro slot t w pd hw hpd
  constructor
  · rcases slot with _ | s <;>
      simp only [effSlot, applyQOp, newSlot, finalDelay, queueBase,
        Option.getD_some, Option.getD_none] <;> split_ifs <;> omega
  · simp [effSlot, applyQOp]

/-- Witness for the amended C3 at a concrete input. -/
theorem c3_slot_monotone_amended_witness :
    effSlot (some 40) 0 + 15 ≤ effSlot (applyQOp 15 (some 40) 0 (QOp.submit 3)) 0 ∧
    effSlot (applyQOp 15 (some 40) 0 QOp.clear) 0 = 0 :=
  c3_slot_monotone_amended (some 40) 0 3 15 (by decide) (by decide)

/-- C4, counterexample: with the shipped configuration `START_HOUR = 18 <
END_HOUR = 21` the claim says hours outside `[18, 21)` are inactive, but the
code's unconditional disjunction makes hour 10 active. -/
theorem c4_active_window_counterexample : ¬ C4Claim :=
  fun h => absurd (h 10 (by decide)) (by decide)

/-- C4, amended: `is_bot_active` tests the unconditional disjunction
`start ≤ hour ∨ hour < end`.  When `start ≥ end` this is exactly the
wraparound interval of the claim, but when `start < end` the disjunction is
a tautology, so with the shipped constants 18 and 21 every hour is active. -/
theorem c4_active_window_amended :
    (∀ s e h : Nat, is_active_with s e h = true ↔ (s ≤ h ∨ h < e)) ∧
    (∀ s e h : Nat, s < e → is_active_with s e h = true) ∧
    (∀ h : Nat, is_bot_active h = true) := by
  refine ⟨fun s e h => by simp [is_active_with], ?_, ?_⟩
  · intro s e h hse
    simp only [is_active_with, Bool.or_eq_true, decide_eq_true_eq]
    omega
  · intro h
    simp only [is_bot_active, is_active_with, START_HOUR, END_HOUR,
      Bool.or_eq_true, decide_eq_true_eq]
    omega

/-- Witness for the amended C4 at a concrete input. -/
theorem c4_active_window_amended_witness : is_active_with 18 21 10 = true :=
  c4_active_window_amended.2.1 18 21 10 (by decide)

theorem searchBounded_nil (pat : List Char) : searchBounded [] pat = false := by
  have hb : boundary [] 0 = false := by decide
  simp [searchBounded, List.range_succ, List.range_zero, boundedMatchAt, hb]

theorem check_spec (words : List (List Char)) (text : List Char) :
    check_for_banned_words words text = true ↔
      ∃ w ∈ words, searchBounded (text.map Char.toLower) w = true := by
  unfold check_for_banned_words
  split_ifs with h
  · rw [List.isEmpty_iff] at h
    subst h
    simp [searchBounded_nil]
  · simp [List.any_eq_true]

/-- C6, counterexample: the claim's "or an exact full-string match" clause
fails when the banned term's edge characters are not word characters: with
banned term `!!` and content `!!` the whole content equals the term, yet
the regex `\b\!\!\b` finds no word boundary, so the filter accepts. -/
theorem c6_word_filter_counterexample : ¬ C6Claim := by
  intro h
  exact absurd (h [['!', '!']] ['!', '!']) (by decide)

/-- C6, amended: the filter rejects exactly when some banned term matches in
the lowercased content with a word boundary on each side; the result is
independent of the iteration order over the banned-term set; and an exact
full-string match is in particular rejected whenever the term's first and
last characters are word characters. -/
theorem c6_word_filter_amended :
    (∀ (words : List (List Char)) (text : List Char),
        check_for_banned_words words text = true ↔
          ∃ w ∈ words, searchBounded (text.map Char.toLower) w = true) ∧
    (∀ (words₁ words₂ : List (List Char)) (text : List Char),
        words₁.Perm words₂ →
        check_for_banned_words words₁ text = check_for_banned_words words₂ text) ∧
    (∀ w text : List Char, w ≠ [] →
        isWordChar (w.getD 0 ' ') = true →
        isWordChar (w.getD (w.length - 1) ' ') = true →
        text.map Char.toLower = w →
        searchBounded (text.map Char.toLower) w = true) := by
  refine ⟨check_spec, ?_, ?_⟩
  · intro w1 w2 text hperm
    rw [Bool.eq_iff_iff, check_spec, check_spec]
    constructor
    · rintro ⟨w, hm, hp⟩; exact ⟨w, hperm.mem_iff.mp hm, hp⟩
    · rintro ⟨w, hm, hp⟩; exact ⟨w, hperm.mem_iff.mpr hm, hp⟩
  · intro w text hne hfirst hlast heq
    rw [heq]
    unfold searchBounded
    rw [List.any_eq_true]
    refine ⟨0, List.mem_range.mpr (by omega), ?_⟩
    have hlen : w.length ≠ 0 := fun h => hne (List.eq_nil_of_length_eq_zero h)
    have hmatch : (w.drop 0).take w.length = w := by simp
    have hw0 : wordAt w 0 = true := hfirst
    have hwl : wordAt w w.length = false := by
      have hsp : isWordChar ' ' = false := by decide
      simp [wordAt, List.getD_eq_default _ _ (le_refl w.length), hsp]
    have hwprev : wordAt w (w.length - 1) = true := hlast
    simp [boundedMatchAt, matchAt, boundary, hmatch, hw0, hwl, hwprev, hlen]

/-- Witness for the amended C6 at concrete inputs. -/
theorem c6_word_filter_amended_witness :
    check_for_banned_words [['a'], ['b']] ['x'] =
      check_for_banned_words [['b'], ['a']] ['x'] ∧
    searchBounded (['H', 'i'].map Char.toLower) ['h', 'i'] = true :=
  ⟨c6_word_filter_amended.2.1 [['a'], ['b']] [['b'], ['a']] ['x'] (by decide),
   c6_word_filter_amended.2.2 ['h', 'i'] ['H', 'i'] (by decide) (by decide)
     (by decide) (by decide)⟩

theorem evalRest_frame (pe le : Bool) (words : List (List Char)) (kind : PostKind)
    (content : List Char) (hasLink isOwner active : Bool) (ua : Int)
    (st : UserState) (now : Int) :
    isAccept (evalRest pe le words kind content hasLink isOwner active ua st now).1
        = false →
    (evalRest pe le words kind content hasLink isOwner active ua st now).2 = st := by
  unfold evalRest
  split_ifs <;> simp [isAccept]

/-- C5: whenever the moderation gate rejects a submission (ban, active
timeout, photo feature off, banned word, links off, link cooldown), the
submitter's slot, link-cooldown record and deletion-cooldown record are
unchanged; the timeout entry is unchanged too, except that an already
expired entry may have been evicted. -/
theorem c5_rejection_frame :
    ∀ (banned pe le : Bool) (words : List (List Char)) (kind : PostKind)
      (content : List Char) (hasLink isOwner active : Bool) (ua : Int)
      (st : UserState) (now : Int),
      isAccept (evaluate banned pe le words kind content hasLink isOwner active
          ua st now).1 = false →
      (evaluate banned pe le words kind content hasLink isOwner active
          ua st now).2.slot = st.slot ∧
      (evaluate banned pe le words kind content hasLink isOwner active
          ua st now).2.linkCd = st.linkCd ∧
      (evaluate banned pe le words kind content hasLink isOwner active
          ua st now).2.delCd = st.delCd ∧
      ((evaluate banned pe le words kind content hasLink isOwner active
          ua st now).2.timeout = st.timeout ∨
        ∃ exp, st.timeout = some exp ∧ exp - now ≤ 0 ∧
          (evaluate banned pe le words kind content hasLink isOwner active
            ua st now).2.timeout = none) := by
  intro banned pe le words kind content hasLink isOwner active ua st now hrej
  rcases htm : st.timeout with _ | exp
  · simp only [evaluate, htm] at hrej ⊢
    split_ifs at hrej ⊢ with hb
    · exact ⟨rfl, rfl, rfl, Or.inl htm⟩
    · have h2 := evalRest_frame pe le words kind content hasLink isOwner active
        ua st now hrej
      rw [h2]
      exact ⟨rfl, rfl, rfl, Or.inl htm⟩
  · simp only [evaluate, htm] at hrej ⊢
    split_ifs at hrej ⊢ with hb hexp
    · exact ⟨rfl, rfl, rfl, Or.inl htm⟩
    · exact ⟨rfl, rfl, rfl, Or.inl htm⟩
    · have h2 := evalRest_frame pe le words kind content hasLink isOwner active
        ua { st with timeout := none } now hrej
      rw [h2]
      exact ⟨rfl, rfl, rfl, Or.inr ⟨exp, rfl, by omega, rfl⟩⟩

/-- Witness for C5 at a concrete rejecting input (banned submitter). -/
theorem c5_rejection_frame_witness :
    isAccept (evaluate true true true [] PostKind.text [] false false true 0
        ⟨some 7, some 3, some 2, none⟩ 0).1 = false ∧
    (evaluate true true true [] PostKind.text [] false false true 0
        ⟨some 7, some 3, some 2, none⟩ 0).2.slot = some 7 :=
  ⟨by decide,
   (c5_rejection_frame true true true [] PostKind.text [] false false true 0
      ⟨some 7, some 3, some 2, none⟩ 0 (by decide)).1⟩

theorem evalRest_links_off (pe : Bool) (words : List (List Char)) (kind : PostKind)
    (content : List Char) (isOwner active : Bool) (ua : Int)
    (st : UserState) (now : Int) :
    isAccept (evalRest pe false words kind content true isOwner active ua st now).1
      = false := by
  unfold evalRest
  split_ifs <;> simp_all [isAccept]

theorem evalRest_stamp (pe le : Bool) (words : List (List Char)) (kind : PostKind)
    (content : List Char) (hasLink isOwner active : Bool) (ua : Int)
    (st : UserState) (now : Int) :
    (evalRest pe le words kind content hasLink isOwner active ua st now).2.linkCd
        ≠ st.linkCd →
    isAccept (evalRest pe le words kind content hasLink isOwner active ua st now).1
        = true ∧
    (evalRest pe le words kind content hasLink isOwner active ua st now).2.linkCd
        = some now := by
  unfold evalRest
  split_ifs with h1 h2 h3 h4 <;> intro hne <;>
    first
      | exact absurd rfl hne
      | exact ⟨rfl, rfl⟩

/-- C7: with the link feature off every link-bearing submission is rejected
regardless of the cooldown state; `toggle_links` flips only the feature flag
and leaves every link-cooldown timestamp unchanged, so after re-enabling a
submitter still inside the window is rejected with the remaining time; and
the link-cooldown timestamp is (re)written only when the whole gate accepts,
in which case it becomes `now`. -/
theorem c7_link_toggle :
    (∀ (banned pe : Bool) (words : List (List Char)) (kind : PostKind)
        (content : List Char) (isOwner active : Bool) (ua : Int)
        (st : UserState) (now : Int),
      isAccept (evaluate banned pe false words kind content true isOwner active
          ua st now).1 = false) ∧
    (∀ g : BotGlobals,
      (toggle_links g).linkCds = g.linkCds ∧
      (toggle_links g).linksEnabled = !g.linksEnabled) ∧
    (∀ (pe : Bool) (words : List (List Char)) (kind : PostKind)
        (content : List Char) (isOwner active : Bool) (ua : Int)
        (st : UserState) (now last : Int),
      st.timeout = none →
      (kind = PostKind.photo → pe = true) →
      check_for_banned_words words content = false →
      st.linkCd = some last →
      now - last < LINK_COOLDOWN →
      (evaluate false pe true words kind content true isOwner active
          ua st now).1 = Decision.rejectLinkCooldown (LINK_COOLDOWN - (now - last))) ∧
    (∀ (banned pe le : Bool) (words : List (List Char)) (kind : PostKind)
        (content : List Char) (hasLink isOwner active : Bool) (ua : Int)
        (st : UserState) (now : Int),
      (evaluate banned pe le words kind content hasLink isOwner active
          ua st now).2.linkCd ≠ st.linkCd →
      isAccept (evaluate banned pe le words kind content hasLink isOwner active
          ua st now).1 = true ∧
      (evaluate banned pe le words kind content hasLink isOwner active
          ua st now).2.linkCd = some now) := by
  refine ⟨?_, fun g => ⟨rfl, rfl⟩, ?_, ?_⟩
  · intro banned pe words kind content isOwner active ua st now
    rcases htm : st.timeout with _ | exp <;> simp only [evaluate, htm] <;>
      split_ifs <;>
      first
        | rfl
        | exact evalRest_links_off pe words kind content isOwner active ua st now
        | exact evalRest_links_off pe words kind content isOwner active ua
            { st with timeout := none } now
  · intro pe words kind content isOwner active ua st now last htm hphoto hword hlc hcool
    have hkind : (kind = PostKind.photo && !pe) = false := by
      rcases hk : kind with _ | _
      · simp
      · simp [hk, hphoto hk]
    simp [evaluate, htm, evalRest, hkind, hword, linkActive, hlc, hcool]
  · intro banned pe le words kind content hasLink isOwner active ua st now hne
    rcases htm : st.timeout with _ | exp
    · simp only [evaluate, htm] at hne ⊢
      split_ifs at hne ⊢ with hb
      · exact absurd rfl hne
      · exact evalRest_stamp pe le words kind content hasLink isOwner active
          ua st now hne
    · simp only [evaluate, htm] at hne ⊢
      split_ifs at hne ⊢ with hb hexp
      · exact absurd rfl hne
      · exact absurd rfl hne
      · exact evalRest_stamp pe le words kind content hasLink isOwner active
          ua { st with timeout := none } now hne

/-- Witness for C7 at concrete inputs: a submitter inside the link-cooldown
window is rejected after re-enabling, and an accepted link submission stamps
the cooldown with now. -/
theorem c7_link_toggle_witness :
    (evaluate false true true [] PostKind.text [] true false true 0
        ⟨none, some 0, none, none⟩ 10).1 =
      Decision.rejectLinkCooldown (LINK_COOLDOWN - 10) ∧
    (evaluate false true true [] PostKind.text [] true false true 0
        ⟨none, none, none, none⟩ 5).2.linkCd = some 5 :=
  ⟨c7_link_toggle.2.2.1 true [] PostKind.text [] false true 0
      ⟨none, some 0, none, none⟩ 10 0 rfl (by intro h; cases h) (by decide) rfl
      (by decide),
   (c7_link_toggle.2.2.2 false true true [] PostKind.text [] true false true 0
      ⟨none, none, none, none⟩ 5 (by decide)).2⟩

theorem delAttempt_issued (d : Option Int) (n : Int) (dOk aOk : Bool) :
    (delAttempt d n dOk aOk).deleteIssued = true := by
  unfold delAttempt
  split_ifs <;> rfl

/-- C8: the deletion-cooldown record is stamped with now exactly when the
external delete succeeds; a retry inside the window is rejected with a
remaining time that strictly decreases as the retry time grows; a retry at
or after expiry reaches the delete attempt; and a failed delete leaves the
record unchanged and reports only the failure. -/
theorem c8_delete_cooldown :
    (∀ (banned fwd : Bool) (target chan : List Char) (delCd : Option Int)
        (now : Int) (dOk aOk : Bool),
      ((handle_delete banned fwd target chan delCd now dOk aOk).delCd ≠ delCd →
        dOk = true ∧
        (handle_delete banned fwd target chan delCd now dOk aOk).delCd = some now) ∧
      ((handle_delete banned fwd target chan delCd now dOk aOk).deleteIssued = true →
        dOk = true →
        (handle_delete banned fwd target chan delCd now dOk aOk).delCd = some now)) ∧
    (∀ (target chan : List Char) (t now₁ now₂ : Int) (dOk₁ aOk₁ dOk₂ aOk₂ : Bool),
      originMatches target chan = true →
      0 ≤ now₁ - t → now₁ < now₂ → now₂ - t < DELETE_COOLDOWN →
      (handle_delete false true target chan (some t) now₁ dOk₁ aOk₁).replies =
        [DelReply.cooldownWait (DELETE_COOLDOWN - (now₁ - t))] ∧
      (handle_delete false true target chan (some t) now₂ dOk₂ aOk₂).replies =
        [DelReply.cooldownWait (DELETE_COOLDOWN - (now₂ - t))] ∧
      DELETE_COOLDOWN - (now₂ - t) < DELETE_COOLDOWN - (now₁ - t) ∧
      (handle_delete false true target chan (some t) now₁ dOk₁ aOk₁).delCd = some t) ∧
    (∀ (target chan : List Char) (t now : Int) (dOk aOk : Bool),
      originMatches target chan = true → DELETE_COOLDOWN ≤ now - t →
      (handle_delete false true target chan (some t) now dOk aOk).deleteIssued
        = true) ∧
    (∀ (target chan : List Char) (delCd : Option Int) (now : Int) (aOk : Bool),
      originMatches target chan = true →
      (∀ t, delCd = some t → ¬(now - t < DELETE_COOLDOWN)) →
      (handle_delete false true target chan delCd now false aOk).replies =
        [DelReply.failure] ∧
      (handle_delete false true target chan delCd now false aOk).delCd = delCd) := by
  refine ⟨?_, ?_, ?_, ?_⟩
  · intro banned fwd target chan delCd now dOk aOk
    rcases delCd with _ | last <;>
      simp only [handle_delete, delAttempt] <;>
      split_ifs <;>
      refine ⟨fun hne => ?_, fun hiss hdok => ?_⟩ <;>
      first
        | exact absurd rfl hne
        | exact ⟨by assumption, rfl⟩
        | exact rfl
        | exact absurd hdok (by assumption)
        | exact hiss.elim
  · intro target chan t now₁ now₂ dOk₁ aOk₁ dOk₂ aOk₂ horigin h0 hlt hin
    have hc1 : now₁ - t < DELETE_COOLDOWN := by omega
    refine ⟨?_, ?_, by omega, ?_⟩ <;> simp [handle_delete, horigin, hc1, hin]
  · intro target chan t now dOk aOk horigin hge
    have hc : ¬(now - t < DELETE_COOLDOWN) := by omega
    simp [handle_delete, horigin, hc, delAttempt_issued]
  · intro target chan delCd now aOk horigin hpass
    rcases delCd with _ | last
    · simp [handle_delete, horigin, delAttempt]
    · have hc := hpass last rfl
      simp [handle_delete, horigin, hc, delAttempt]

/-- Witness for C8 at concrete inputs: stamped cooldown 0, retries at 10 and
20 seconds rejected with 50 and 40 seconds remaining, retry at 70 reaches
the delete, and a failed delete leaves the record unchanged. -/
theorem c8_delete_cooldown_witness :
    ((handle_delete false true ['c'] ['c'] (some 0) 10 false false).replies =
        [DelReply.cooldownWait 50] ∧
      (handle_delete false true ['c'] ['c'] (some 0) 20 false false).replies =
        [DelReply.cooldownWait 40] ∧
      (40 : Int) < 50 ∧
      (handle_delete false true ['c'] ['c'] (some 0) 10 false false).delCd = some 0) ∧
    (handle_delete false true ['c'] ['c'] (some 0) 70 true true).deleteIssued = true ∧
    (handle_delete false true ['c'] ['c'] none 4 false true).replies =
      [DelReply.failure] :=
  ⟨c8_delete_cooldown.2.1 ['c'] ['c'] 0 10 20 false false false false (by decide)
      (by decide) (by decide) (by decide),
   c8_delete_cooldown.2.2.1 ['c'] ['c'] 0 70 true true (by decide) (by decide),
   (c8_delete_cooldown.2.2.2 ['c'] ['c'] none 4 true (by decide)
      (fun t ht => nomatch ht)).1⟩

/-- C9, counterexample: on the deletion path the audit send sits inside the
same `try` as the delete, so when the delete succeeds but the audit write
fails, the `except` block additionally sends the generic failure reply: the
outcome reported to the requester does depend on the audit result. -/
theorem c9_audit_counterexample : ¬ C9Claim := by
  intro h
  exact absurd (h false true ['c'] ['c'] none 0) (by decide)

/-- C9, amended: audit failures never change the committed state.  On the
publish path the channel publish result is independent of the audit oracles,
failures are only printed, and the audit write runs only after a successful
publish.  On the deletion path a successful delete stamps the cooldown and
sends the Deleted reply regardless of the audit outcome, but an audit
failure additionally sends the generic failure reply to the requester. -/
theorem c9_audit_amended :
    (∀ lOk sOk : Bool,
      (post_text true lOk sOk).published = true ∧
      (post_text true lOk sOk).errorPrinted = !(lOk && sOk)) ∧
    (∀ lOk sOk : Bool,
      (post_text false lOk sOk).published = false ∧
      (post_text false lOk sOk).auditLogged = false) ∧
    (∀ (target chan : List Char) (delCd : Option Int) (now : Int) (aOk : Bool),
      originMatches target chan = true →
      (∀ t, delCd = some t → ¬(now - t < DELETE_COOLDOWN)) →
      (handle_delete false true target chan delCd now true aOk).delCd = some now ∧
      DelReply.success ∈
        (handle_delete false true target chan delCd now true aOk).replies ∧
      (aOk = false →
        (handle_delete false true target chan delCd now true aOk).replies =
          [DelReply.success, DelReply.failure])) := by
  refine ⟨fun lOk sOk => by rcases lOk <;> rcases sOk <;> simp [post_text],
    fun lOk sOk => by simp [post_text], ?_⟩
  intro target chan delCd now aOk horigin hpass
  rcases delCd with _ | last
  · rcases aOk with _ | _ <;> simp [handle_delete, horigin, delAttempt]
  · have hc := hpass last rfl
    rcases aOk with _ | _ <;> simp [handle_delete, horigin, hc, delAttempt]

/-- Witness for the amended C9 at a concrete input. -/
theorem c9_audit_amended_witness :
    (handle_delete false true ['c'] ['c'] none 0 true false).delCd = some 0 ∧
    (handle_delete false true ['c'] ['c'] none 0 true false).replies =
      [DelReply.success, DelReply.failure] :=
  ⟨(c9_audit_amended.2.2 ['c'] ['c'] none 0 false (by decide)
      (fun t ht => nomatch ht)).1,
   (c9_audit_amended.2.2 ['c'] ['c'] none 0 false (by decide)
      (fun t ht => nomatch ht)).2.2 rfl⟩

/-- C10: the deletion path checks only the requester's ban status, the
forward origin and the requester's own deletion cooldown; no datum about the
original submitter of the forwarded message enters the decision, so any
non-banned requester outside their cooldown who forwards a channel message
triggers the remove operation on it. -/
theorem c10_delete_no_ownership :
    ∀ (target chan : List Char) (delCd : Option Int) (now : Int) (dOk aOk : Bool),
      originMatches target chan = true →
      (∀ t, delCd = some t → DELETE_COOLDOWN ≤ now - t) →
      (handle_delete false true target chan delCd now dOk aOk).deleteIssued = true := by
  intro target chan delCd now dOk aOk horigin hpass
  rcases delCd with _ | last
  · simp [handle_delete, horigin, delAttempt_issued]
  · have hc : ¬(now - last < DELETE_COOLDOWN) := by
      have := hpass last rfl
      omega
    simp [handle_delete, horigin, hc, delAttempt_issued]

/-- Witness for C10 at a concrete input. -/
theorem c10_delete_no_ownership_witness :
    (handle_delete false true ['c'] ['c'] none 5 true true).deleteIssued = true :=
  c10_delete_no_ownership ['c'] ['c'] none 5 true true (by decide)
    (fun t ht => nomatch ht)

end ConfessionBot
